import Mathlib

/-!
Verification of the derived-observation computation and temporal aggregation
engine of the istSOS observation-retrieval core
(`istsoslib/responders/GOresponse.py`).

The Python code is shallowly embedded below:

* timestamps are modelled as `Int` (an instant count, e.g. epoch seconds);
* measurement values and quality codes as `ℚ` (Python floats, idealized);
* a Python `None` value as `Option`;
* Python's `float.__pow__`, whose numeric value no claim depends on, is kept
  as an explicit function parameter `pw : ℚ → ℚ → ℚ` of the embeddings;
* Python's banker's rounding `round(x, n)` and `"%.4f"` formatting are
  modelled by `pyRound`, and `int(x)` truncation by `pyTrunc`.

Each embedded definition carries a comment naming the source lines it
translates.
-/

namespace Istsos

/-- Python `int(q)`: truncation toward zero. -/
def pyTrunc (q : ℚ) : Int :=
  if q < 0 then ⌈q⌉ else ⌊q⌋

/-- Round-half-to-even on rationals (Python's `round` tie-breaking rule). -/
def roundHalfEven (x : ℚ) : Int :=
  let f : Int := ⌊x⌋
  let r : ℚ := x - (f : ℚ)
  if r < 1/2 then f
  else if 1/2 < r then f + 1
  else if f % 2 = 0 then f else f + 1

/-- Python `round(x, n)` on rationals (also models `"%.4f" % x` with `n = 4`). -/
def pyRound (n : Nat) (x : ℚ) : ℚ :=
  (roundHalfEven (x * (10 ^ n : ℚ)) : ℚ) / (10 ^ n : ℚ)

/-- Python `min` of a nonempty list (`0` is never used: callers guard emptiness,
as the source does with `len(...) == 0`). -/
def listMin : List ℚ → ℚ
  | [] => 0
  | x :: xs => xs.foldl min x

/-- Python `max` of a nonempty list, same convention as `listMin`. -/
def listMax : List ℚ → ℚ
  | [] => 0
  | x :: xs => xs.foldl max x

/-- Python `sum`. -/
def listSum (l : List ℚ) : ℚ := l.foldl (· + ·) 0

/-! ## Rating curve transform (`VirtualProcessHQ`, GOresponse.py 521-655) -/

/-- One row of the `.rcv` rating-curve table: columns
`from | to | low_val | up_val | A | B | C | K` (GOresponse.py 559-604). -/
structure HQSeg where
  tFrom : Int
  tTo : Int
  low : ℚ
  up : ℚ
  A : ℚ
  B : ℚ
  C : ℚ
  K : ℚ
deriving DecidableEq

/-- One raw input record `[timestamp, value, qualityIndex]` handed to
`VirtualProcessHQ.execute` by `getData` (value may be SQL NULL). -/
structure HQRec where
  t : Int
  v : Option ℚ
  qi : ℚ
deriving DecidableEq

/-- An output value of the HQ transform: either the raw float `-999.9`
sentinel (`num`) or a `"%.4f"`-formatted transform result (`fmt`). -/
inductive HQVal where
  | num : ℚ → HQVal
  | fmt : ℚ → HQVal
deriving DecidableEq

/-- An output row `[timestamp, value, qualityIndex]` of the quality-reporting
HQ transform. -/
abbrev HQRow := Int × HQVal × ℚ

/-- The segment guard of GOresponse.py 623:
`self.hqCurves['from'][o] < rec[0] <= self.hqCurves['to'][o]` and
`self.hqCurves['low'][o] <= float(rec[1]) < self.hqCurves['up'][o]`. -/
def hqMatch (s : HQSeg) (t : Int) (v : ℚ) : Bool :=
  (decide (s.tFrom < t) && decide (t ≤ s.tTo)) &&
    (decide (s.low ≤ v) && decide (v < s.up))

/-- The row emitted for a matching segment (GOresponse.py 624-628):
`K + A * (v - B) ** C` formatted with `"%.4f"` and the input quality code
passed through when `v - B ≥ 0`, else the `(-999.9, 120)` sentinel row. -/
def hqSegRow (pw : ℚ → ℚ → ℚ) (t : Int) (v qi : ℚ) (s : HQSeg) : HQRow :=
  if 0 ≤ v - s.B then
    (t, HQVal.fmt (pyRound 4 (s.K + s.A * pw (v - s.B) s.C)), qi)
  else
    (t, HQVal.num (-9999/10), 120)

/-- The inner `for o in range(len(self.hqCurves['from']))` loop of
`VirtualProcessHQ.execute` in the quality-reporting branch
(GOresponse.py 618-633): the rows this loop appends to `data_out` for one
input record.  With an empty table the loop body never runs and nothing is
appended; the `o == len - 1` trailing check emits the `(-999.9, 120)` row when
the final segment has been reached without a match. -/
def hqLoopQI (pw : ℚ → ℚ → ℚ) (t : Int) (v? : Option ℚ) (qi : ℚ) :
    List HQSeg → List HQRow
  | [] => []
  | s :: rest =>
    match v? with
    | none => [(t, HQVal.num (-9999/10), 120)]
    | some v =>
      if hqMatch s t v then
        [hqSegRow pw t v qi s]
      else
        match rest with
        | [] => [(t, HQVal.num (-9999/10), 120)]
        | _ :: _ => hqLoopQI pw t v? qi rest

/-- The rows appended to `data_out` for one input record by
`VirtualProcessHQ.execute` with `filter.qualityIndex == True`
(GOresponse.py 611-633): a missing value or a value strictly below `-999.0`
short-circuits to the `(-999.9, 110)` row before any segment is inspected;
otherwise the segment loop decides. -/
def hqRecordQI (pw : ℚ → ℚ → ℚ) (curves : List HQSeg) (r : HQRec) :
    List HQRow :=
  match r.v with
  | none => [(r.t, HQVal.num (-9999/10), 110)]
  | some v =>
    if v < -999 then [(r.t, HQVal.num (-9999/10), 110)]
    else hqLoopQI pw r.t (some v) r.qi curves

/-- `VirtualProcessHQ.execute` with quality reporting (GOresponse.py 611-633):
concatenation of the per-record outputs over the input series. -/
def hqExecuteQI (pw : ℚ → ℚ → ℚ) (curves : List HQSeg) (data : List HQRec) :
    List HQRow :=
  data.flatMap (hqRecordQI pw curves)

/-! ### C3: low-value sentinel row -/

/-- A concrete power function used to instantiate the abstract `pw`
parameter in concrete evaluations. -/
def powSample : ℚ → ℚ → ℚ := fun a _ => a

/-- A segment whose time window and value range cover the C3 counterexample
input `(t = 0, v = -1000)`, so that a segment lookup would have matched. -/
def segC3 : HQSeg := ⟨-1, 1, -2000, 0, 1, 0, 1, 0⟩

/-- Claim C3 is false as stated: for the present value `-1000 < -999.0` at
timestamp `0` the quality-reporting HQ transform emits the row
`(0, -999.9, 110)` — quality code `110`, not the claimed `120` — even though
a segment covering the sample exists. -/
theorem hq_low_value_quality_not_120 :
    hqRecordQI powSample [segC3] ⟨0, some (-1000), 100⟩ =
      [(0, HQVal.num (-9999/10), 110)] ∧
    hqRecordQI powSample [segC3] ⟨0, some (-1000), 100⟩ ≠
      [(0, HQVal.num (-9999/10), 120)] := by
  refine ⟨rfl, fun hc => ?_⟩
  rw [show hqRecordQI powSample [segC3] ⟨0, some (-1000), 100⟩ =
      [(0, HQVal.num (-9999/10), 110)] from rfl] at hc
  simp only [List.cons.injEq, Prod.mk.injEq, and_true, true_and,
    eq_self_iff_true] at hc
  exact absurd hc (by norm_num)

/-- Claim C3 (amended): for every input record with a present value strictly
below `-999.0`, the quality-reporting HQ transform emits exactly the row
`(timestamp, -999.9, 110)`, and it does so for every curve table alike —
i.e. before any curve-segment lookup is attempted. -/
theorem hq_low_value_sentinel (pw : ℚ → ℚ → ℚ) (curves : List HQSeg)
    (t : Int) (v qi : ℚ) (h : v < -999) :
    hqRecordQI pw curves ⟨t, some v, qi⟩ = [(t, HQVal.num (-9999/10), 110)] := by
  simp [hqRecordQI, h]

/-- Witness for `hq_low_value_sentinel` at the concrete input
`(t, v, qi) = (3, -1000, 100)` with a nonempty curve table. -/
theorem hq_low_value_sentinel_witness :
    hqRecordQI powSample [segC3] ⟨3, some (-1000), 100⟩ =
      [(3, HQVal.num (-9999/10), 110)] :=
  hq_low_value_sentinel powSample [segC3] 3 (-1000) 100 (by norm_num)

/-! ### C4: first matching segment wins -/

/-- Claim C4: whenever the curve table decomposes as a prefix of
non-matching segments followed by a matching segment `s`, the output row for
the record is determined by `s` alone — the remaining segments `post` do not
influence the result (they are never examined), and this holds even when a
segment in `post` would also match. -/
theorem hq_first_match_wins (pw : ℚ → ℚ → ℚ) (t : Int) (v qi : ℚ)
    (pre post : List HQSeg) (s : HQSeg)
    (hpre : ∀ s' ∈ pre, hqMatch s' t v = false)
    (hs : hqMatch s t v = true) :
    hqLoopQI pw t (some v) qi (pre ++ s :: post) = [hqSegRow pw t v qi s] := by
  induction pre with
  | nil => simp [hqLoopQI, hs]
  | cons p pre ih =>
    have hp : hqMatch p t v = false := hpre p (List.mem_cons_self p pre)
    have hstep : hqLoopQI pw t (some v) qi ((p :: pre) ++ s :: post) =
        hqLoopQI pw t (some v) qi (pre ++ s :: post) := by
      cases pre <;> simp [hqLoopQI, hp]
    rw [hstep]
    exact ih fun s' h => hpre s' (List.mem_cons_of_mem p h)

/-- Two overlapping segments for the C4 witness: both match `(t, v) = (5, 2)`. -/
def segC4a : HQSeg := ⟨0, 10, 0, 10, 1, 0, 1, 0⟩

/-- Second C4 witness segment, also matching `(t, v) = (5, 2)`. -/
def segC4b : HQSeg := ⟨0, 10, 1, 5, 2, 0, 1, 0⟩

/-- Witness for `hq_first_match_wins`: with the table `[segC4a, segC4b]` where
both segments match the sample `(t, v) = (5, 2)`, the output row comes from
`segC4a`, the first in table order. -/
theorem hq_first_match_wins_witness :
    hqMatch segC4b 5 2 = true ∧
    hqLoopQI powSample 5 (some 2) 100 [segC4a, segC4b] =
      [hqSegRow powSample 5 2 100 segC4a] :=
  ⟨by decide,
   hq_first_match_wins powSample 5 2 100 [] [segC4b] segC4a
     (fun s' h => absurd h (List.not_mem_nil s')) (by decide)⟩

/-! ### C10: empty curve table drops in-range samples -/

/-- Claim C10: with an empty curve table, an input record whose value is
present and not below `-999.0` contributes no output row at all, so the
output series is shorter than the input series. -/
theorem hq_empty_table_drops_rows (pw : ℚ → ℚ → ℚ) (t : Int) (v qi : ℚ)
    (h : ¬ v < -999) :
    hqRecordQI pw [] ⟨t, some v, qi⟩ = [] ∧
    hqExecuteQI pw [] [⟨t, some v, qi⟩] = [] := by
  constructor
  · simp [hqRecordQI, h, hqLoopQI]
  · simp [hqExecuteQI, hqRecordQI, h, hqLoopQI]

/-- Witness for `hq_empty_table_drops_rows` at `(t, v, qi) = (7, 5, 100)`. -/
theorem hq_empty_table_drops_rows_witness :
    hqRecordQI powSample [] ⟨7, some 5, 100⟩ = [] ∧
    hqExecuteQI powSample [] [⟨7, some 5, 100⟩] = [] :=
  hq_empty_table_drops_rows powSample 7 5 100 (by norm_num)

/-! ## Sampling-time resolution (`VirtualProcess.setSampligTime`,
GOresponse.py 100-217) -/

/-- A row of the `procedures` table as read by `setSampligTime`:
procedure name and the (possibly NULL) declared sampling-time bounds. -/
structure ProcRow where
  name_prc : String
  stime_prc : Option Int
  etime_prc : Option Int
deriving DecidableEq

/-- Python `min` over a nonempty list of `Int` (callers guard emptiness). -/
def listMinInt : List Int → Int
  | [] => 0
  | x :: xs => xs.foldl min x

/-- Python `max` over a nonempty list of `Int` (callers guard emptiness). -/
def listMaxInt : List Int → Int
  | [] => 0
  | x :: xs => xs.foldl max x

/-- The rows satisfying the `WHERE` clause of the multi-procedure query of
GOresponse.py 185-194: `stime_prc IS NOT NULL AND etime_prc IS NOT NULL`
and `name_prc` among the resolved leaf dependencies. -/
def candidateRows (table : List ProcRow) (names : List String) :
    List (Int × Int) :=
  table.filterMap fun r =>
    match r.stime_prc, r.etime_prc with
    | some s, some e => if names.contains r.name_prc then some (s, e) else none
    | _, _ => none

/-- The distinct `(stime_prc, etime_prc)` group keys in first-appearance
order.  SQL leaves the order of `GROUP BY` output unspecified; the theorem
below quantifies over every produced group row and is order-insensitive. -/
def groupKeysFirst (l : List (Int × Int)) : List (Int × Int) :=
  l.foldl (fun acc k => if k ∈ acc then acc else acc ++ [k]) []

/-- Relational semantics of the query built at GOresponse.py 185-194:
`SELECT min(stime_prc), max(etime_prc) FROM procedures WHERE (stime_prc IS
NOT NULL AND etime_prc IS NOT NULL) AND (name_prc = ... OR ...) GROUP BY
stime_prc, etime_prc` — one output row per distinct `(stime, etime)` pair,
with `min`/`max` taken inside each group. -/
def sqlGroupMinMax (rows : List (Int × Int)) : List (Int × Int) :=
  (groupKeysFirst rows).map fun k =>
    let g := rows.filter fun r => r = k
    (listMinInt (g.map Prod.fst), listMaxInt (g.map Prod.snd))

/-- `VirtualProcess.setSampligTime` for more than one resolved leaf
dependency (GOresponse.py 184-217): run the grouped query and take
`result[0]`, or `(None, None)` when the query returns no row. -/
def setSampligTimeMulti (table : List ProcRow) (names : List String) :
    Option Int × Option Int :=
  match sqlGroupMinMax (candidateRows table names) with
  | [] => (none, none)
  | p :: _ => (some p.1, some p.2)

/-- The procedures table of the C2 failing input: dependency `A` with
interval (day 1, day 5) and dependency `B` with interval (day 3, day 10). -/
def tableC2 : List ProcRow :=
  [⟨"A", some 1, some 5⟩, ⟨"B", some 3, some 10⟩]

/-- Claim C2 fails on the code: with leaf dependencies `A` (interval 1-5)
and `B` (interval 3-10), the `GROUP BY stime_prc, etime_prc` clause makes
`min`/`max` per-group no-ops, so the resolved interval is the first group's
own interval `(1, 5)` — and no group row of the query ever equals the
claimed `(1, 10)`, whatever order the database returns the groups in. -/
theorem setSampligTime_group_by_bug :
    setSampligTimeMulti tableC2 ["A", "B"] = (some 1, some 5) ∧
    ∀ p ∈ sqlGroupMinMax (candidateRows tableC2 ["A", "B"]), p ≠ (1, 10) := by
  constructor
  · rfl
  · decide

/-! ## Cascading dependency check (`VirtualProcess.setSampligTime`,
GOresponse.py 128-182) -/

/-- The procedure catalog consumed by the dependency walk: observation-type
name per procedure (row of `obs_type` joined to `procedures`), and the
`procedures` attribute of each virtual procedure's plugin (`vp.procedures`). -/
structure Catalog where
  procTypes : List (String × String)
  virtualDeps : List (String × List String)

/-- The `SELECT name_oty ... WHERE name_prc = %s` lookup of
GOresponse.py 130-145: `none` models an empty result set. -/
def lookupType (cat : Catalog) (p : String) : Option String :=
  (cat.procTypes.find? fun q => q.1 == p).map (·.2)

/-- The dependency list read from a virtual procedure's plugin
(GOresponse.py 158-163); empty when the plugin declares none. -/
def depsOf (cat : Catalog) (p : String) : List String :=
  ((cat.virtualDeps.find? fun q => q.1 == p).map (·.2)).getD []

/-- The `for p in tmp` walk of GOresponse.py 128-166: each dependency is
looked up in the catalog; an absent dependency raises at once, naming only
that procedure (GOresponse.py 138-143); a virtual dependency appends its own
dependencies to the end of the work list; a physical one is accumulated as a
leaf.  The `fuel` parameter bounds the walk, which the Python code leaves
unbounded (it would not terminate on a cyclic dependency graph). -/
def cascadeCheck (cat : Catalog) : Nat → List String → List String →
    Except String (List String)
  | _, [], leaves => Except.ok leaves
  | 0, _ :: _, _ => Except.error "unbounded cascading expansion"
  | Nat.succ fuel, p :: rest, leaves =>
    match lookupType cat p with
    | none =>
      Except.error
        ("Virtual Procedure Error: procedure " ++ p ++
          " not found in the database")
    | some ty =>
      if ty = "virtual" then cascadeCheck cat fuel (rest ++ depsOf cat p) leaves
      else cascadeCheck cat fuel rest (leaves ++ [p])

/-- Claim C6 fails on the code: with both dependencies `P1` and `P2` absent
from the catalog, the walk raises on the first one alone — the error names
`P1` and does not mention `P2` (the character string `P2` is not an infix of
the message), instead of batching both names into one error.  The batching
loop of GOresponse.py 171-182 is only reached after every dependency already
passed this per-procedure check. -/
theorem dependency_error_names_first_only :
    cascadeCheck ⟨[], []⟩ 10 ["P1", "P2"] [] =
      Except.error
        "Virtual Procedure Error: procedure P1 not found in the database" ∧
    ¬ ("P2".toList <:+:
        "Virtual Procedure Error: procedure P1 not found in the database".toList) := by
  constructor
  · rfl
  · decide

/-! ## Rating-curve table loading (`VirtualProcessHQ.setDischargeCurves`,
GOresponse.py 523-604) -/

/-- The segment filter applied when the request carries a time window
`(p0, p1)` (GOresponse.py 575-586):
`iso.parse_datetime(line[1]) > period[0] or iso.parse_datetime(line[0]) <=
period[1]` — an `or`, with `line[0]`/`line[1]` the `from`/`to` columns. -/
def setDischargeCurvesWindow (p0 p1 : Int) (rows : List HQSeg) : List HQSeg :=
  rows.filter fun r => decide (p0 < r.tTo) || decide (r.tFrom ≤ p1)

/-- The no-window path of `setDischargeCurves` (GOresponse.py 588-602):
`for l in [-1, -2]` loads the last two data rows, tolerating fewer. -/
def setDischargeCurvesNoWindow (rows : List HQSeg) : List HQSeg :=
  rows.reverse.take 2

/-- Claim C7 fails on the code: the window filter's `or` is a tautology for
any well-formed segment (`from ≤ to`) against any well-formed window
(`p0 ≤ p1`), so *every* segment is loaded — including segments that do not
overlap the window at all. -/
theorem setDischargeCurves_filter_vacuous (p0 p1 : Int) (rows : List HQSeg)
    (hw : p0 ≤ p1) (hrows : ∀ r ∈ rows, r.tFrom ≤ r.tTo) :
    setDischargeCurvesWindow p0 p1 rows = rows := by
  unfold setDischargeCurvesWindow
  rw [List.filter_eq_self]
  intro r hr
  have h := hrows r hr
  simp only [Bool.or_eq_true, decide_eq_true_eq]
  omega

/-- Witness for `setDischargeCurves_filter_vacuous`: the segment valid over
(1, 5) does not overlap the request window (10, 20), yet it is loaded. -/
theorem setDischargeCurves_filter_vacuous_witness :
    setDischargeCurvesWindow 10 20 [⟨1, 5, 0, 0, 0, 0, 0, 0⟩] =
      [⟨1, 5, 0, 0, 0, 0, 0, 0⟩] :=
  setDischargeCurves_filter_vacuous 10 20 [⟨1, 5, 0, 0, 0, 0, 0, 0⟩]
    (by norm_num) (by intro r hr; simp at hr; rw [hr]; decide)

/-! ## Dependency map sharing (`VirtualProcess.procedures`,
GOresponse.py 60 and 74-80) -/

/-- The mutable state relevant to `VirtualProcess.procedures`:
`classProcs` is the dict bound to the *class* attribute `procedures = {}`
(GOresponse.py 60); `instProcs` holds the per-instance `__dict__` entries
that exist only after a method assigns `self.procedures = ...` (which
`addProcedure` never does).  Instances are identified by a number. -/
structure VPWorld where
  classProcs : List (String × String)
  instProcs : List (Nat × List (String × String))
deriving DecidableEq

/-- Python dict item assignment `d[k] = v`: update in place if the key
exists, else append, preserving insertion order. -/
def dictSet (d : List (String × String)) (k v : String) :
    List (String × String) :=
  if d.any fun e => e.1 == k then
    d.map fun e => if e.1 == k then (k, v) else e
  else d ++ [(k, v)]

/-- Python attribute lookup `self.procedures` for instance `i`: the
instance `__dict__` entry if one exists, else the class attribute. -/
def getProcedures (w : VPWorld) (i : Nat) : List (String × String) :=
  match w.instProcs.find? fun e => e.1 == i with
  | some e => e.2
  | none => w.classProcs

/-- `VirtualProcess.addProcedure` (GOresponse.py 74-80):
`self.procedures[name] = observedProperty` — item assignment mutates
whichever dict the attribute lookup resolves to; for a fresh instance that
is the class-level dict shared by every instance. -/
def addProcedure (w : VPWorld) (i : Nat) (nm obsProp : String) : VPWorld :=
  match w.instProcs.find? fun e => e.1 == i with
  | some _ =>
    { w with
      instProcs := w.instProcs.map fun q =>
        if q.1 == i then (q.1, dictSet q.2 nm obsProp) else q }
  | none => { w with classProcs := dictSet w.classProcs nm obsProp }

/-- Claim C9 fails on the code: starting from a pristine world (empty class
dict, no instance attributes), `addProcedure` called through instance `1`
is observed by the distinct fresh instance `2`, whose dependency map was
empty beforehand — the map is class-level shared state, not per-instance
state. -/
theorem addProcedure_shared_across_instances :
    getProcedures (⟨[], []⟩ : VPWorld) 2 = [] ∧
    getProcedures (addProcedure ⟨[], []⟩ 1 "A" "urn:obs") 2 =
      [("A", "urn:obs")] ∧
    getProcedures (addProcedure ⟨[], []⟩ 1 "A" "urn:obs") 2 ≠ [] := by
  refine ⟨rfl, rfl, ?_⟩
  decide

/-! ## Profile composition (`VirtualProcessProfile.execute`,
GOresponse.py 469-518) -/

/-- Stable insertion into a list already sorted by `le`: `x` goes before the
first element `y` with `le x y = true`, so elements with equal keys keep
their original relative order. -/
def insertByLe {α : Type} (le : α → α → Bool) (x : α) : List α → List α
  | [] => [x]
  | y :: ys => if le x y then x :: y :: ys else y :: insertByLe le x ys

/-- Stable insertion sort by `le`, modelling Python's stable `list.sort`. -/
def sortStable {α : Type} (le : α → α → Bool) : List α → List α
  | [] => []
  | x :: xs => insertByLe le x (sortStable le xs)

/-- Python `data.sort(key=lambda row: row[i])`: stable ascending sort on
column `i` (rows are assumed long enough, as the source assumes; `getD`'s
default is never read on such rows). -/
def pySortAsc (i : Nat) (l : List (List ℚ)) : List (List ℚ) :=
  sortStable (fun a b => decide (a.getD i 0 ≤ b.getD i 0)) l

/-- Python `data.sort(key=lambda row: row[i], reverse=True)`: stable
descending sort on column `i`.  Python's `reverse=True` keeps elements with
equal keys in their original order — it does not reverse them. -/
def pySortDesc (i : Nat) (l : List (List ℚ)) : List (List ℚ) :=
  sortStable (fun a b => decide (b.getD i 0 ≤ a.getD i 0)) l

/-- GOresponse.py 492-505 for one member procedure `(series, elevation)`
under quality reporting: `[round(abs(zref - z), 1), 100]` is appended to
every row of the member's series. -/
def profileAppendQI (zref : ℚ) (m : List (List ℚ) × ℚ) : List (List ℚ) :=
  m.1.map fun row => row ++ [pyRound 1 |zref - m.2|, 100]

/-- The `data` list built by `VirtualProcessProfile.execute` under quality
reporting (GOresponse.py 478-506): the members' annotated series
concatenated in member order. -/
def profileBuildQI (zref : ℚ) (members : List (List (List ℚ) × ℚ)) :
    List (List ℚ) :=
  (members.map (profileAppendQI zref)).flatten

/-- The sort tail of `VirtualProcessProfile.execute` with quality reporting
(GOresponse.py 508-510): first `data.sort(key=lambda row: row[0])`, then
`data.sort(key=lambda row: row[4], reverse=True)`. -/
def profileComposeQI (zref : ℚ) (members : List (List (List ℚ) × ℚ)) :
    List (List ℚ) :=
  pySortDesc 4 (pySortAsc 0 (profileBuildQI zref members))

/-- The output ordering asserted by claim C8 for quality reporting:
primarily timestamp (column 0) ascending, and on equal timestamps quality
(column 2 of a member row `[t, v, qi, depth, 100]`) descending. -/
def c8ClaimOrder (a b : List ℚ) : Prop :=
  a.getD 0 0 < b.getD 0 0 ∨ (a.getD 0 0 = b.getD 0 0 ∧ b.getD 2 0 ≤ a.getD 2 0)

instance : DecidableRel c8ClaimOrder := fun a b => by
  unfold c8ClaimOrder; infer_instance

/-- Claim C8 is false as stated: with two members contributing one row each
at the same timestamp `0`, with quality codes `90` and `110`, the composed
output keeps concatenation order (the `90` row first).  The second — hence
primary — sort key is column 4, the constant synthetic code `100`, so that
stable sort is a no-op and rows with equal timestamps are *not* reordered
quality-descending. -/
theorem profile_order_claim_false :
    ¬ List.Pairwise c8ClaimOrder
        (profileComposeQI 0 [([[0, 1, 90]], 1), ([[0, 2, 110]], 2)]) := by
  decide

/-- Elements of `insertByLe le x l` are `x` and the elements of `l`. -/
theorem mem_insertByLe {α : Type} (le : α → α → Bool) (x a : α) :
    ∀ l : List α, a ∈ insertByLe le x l ↔ a = x ∨ a ∈ l := by
  intro l
  induction l with
  | nil => simp [insertByLe]
  | cons y ys ih =>
    simp only [insertByLe]
    split
    · simp [List.mem_cons]
    · simp [List.mem_cons, ih]
      tauto

/-- `sortStable` permutes membership. -/
theorem mem_sortStable {α : Type} (le : α → α → Bool) (a : α) :
    ∀ l : List α, a ∈ sortStable le l ↔ a ∈ l := by
  intro l
  induction l with
  | nil => simp [sortStable]
  | cons x xs ih => simp [sortStable, mem_insertByLe, ih]

/-- Inserting an element that compares `le`-before every list element puts
it at the head and changes nothing else. -/
theorem insertByLe_allTrue {α : Type} (le : α → α → Bool) (x : α)
    (l : List α) (h : ∀ y ∈ l, le x y = true) : insertByLe le x l = x :: l := by
  cases l with
  | nil => rfl
  | cons y ys => simp [insertByLe, h y (List.mem_cons_self y ys)]

/-- A stable sort whose comparison accepts every pair of list elements is
the identity: this is what makes the second `sort` of the profile
composition a no-op when its key column is constant. -/
theorem sortStable_allTrue {α : Type} (le : α → α → Bool) :
    ∀ l : List α, (∀ a ∈ l, ∀ b ∈ l, le a b = true) → sortStable le l = l := by
  intro l
  induction l with
  | nil => intro _; rfl
  | cons x xs ih =>
    intro h
    have hxs : sortStable le xs = xs :=
      ih fun a ha b hb =>
        h a (List.mem_cons_of_mem x ha) b (List.mem_cons_of_mem x hb)
    simp only [sortStable, hxs]
    exact insertByLe_allTrue le x xs fun y hy =>
      h x (List.mem_cons_self x xs) y (List.mem_cons_of_mem x hy)

/-- Stable insertion preserves pairwise sortedness for a total transitive
comparison. -/
theorem pairwise_insertByLe {α : Type} (le : α → α → Bool)
    (htot : ∀ a b, le a b = true ∨ le b a = true)
    (htrans : ∀ a b c, le a b = true → le b c = true → le a c = true)
    (x : α) :
    ∀ l : List α, l.Pairwise (fun a b => le a b = true) →
      (insertByLe le x l).Pairwise (fun a b => le a b = true) := by
  intro l
  induction l with
  | nil => intro _; simp [insertByLe]
  | cons y ys ih =>
    intro hp
    rw [List.pairwise_cons] at hp
    obtain ⟨hy, hys⟩ := hp
    simp only [insertByLe]
    split
    case isTrue h =>
      rw [List.pairwise_cons]
      refine ⟨?_, List.pairwise_cons.mpr ⟨hy, hys⟩⟩
      intro b hb
      rcases List.mem_cons.mp hb with rfl | hb
      · exact h
      · exact htrans x y b h (hy b hb)
    case isFalse h =>
      rw [List.pairwise_cons]
      refine ⟨?_, ih hys⟩
      intro b hb
      rcases (mem_insertByLe le x b ys).mp hb with rfl | hb
      · rcases htot b y with hby | hyb
        · exact absurd hby h
        · exact hyb
      · exact hy b hb

/-- `sortStable` sorts: its output is pairwise ordered by the comparison. -/
theorem pairwise_sortStable {α : Type} (le : α → α → Bool)
    (htot : ∀ a b, le a b = true ∨ le b a = true)
    (htrans : ∀ a b c, le a b = true → le b c = true → le a c = true) :
    ∀ l : List α, (sortStable le l).Pairwise (fun a b => le a b = true) := by
  intro l
  induction l with
  | nil => simp [sortStable]
  | cons x xs ih => exact pairwise_insertByLe le htot htrans x (sortStable le xs) ih

/-- Claim C8 (amended): the composed output is the two stable sorts in
source order — timestamp-ascending first, then column 4 descending.  When
quality reporting is enabled every built row carries the constant synthetic
code `100` at column 4, so the second (primary) sort is a no-op: the output
equals the stable timestamp-ascending sort of the concatenated member rows,
and is therefore ordered by timestamp ascending with equal-timestamp rows
left in member-concatenation order (not reordered by quality). -/
theorem profile_compose_timestamp_sorted (zref : ℚ)
    (members : List (List (List ℚ) × ℚ))
    (h : ∀ row ∈ profileBuildQI zref members, row.getD 4 0 = 100) :
    profileComposeQI zref members = pySortAsc 0 (profileBuildQI zref members) ∧
    (profileComposeQI zref members).Pairwise
      (fun a b => a.getD 0 0 ≤ b.getD 0 0) := by
  have hall : ∀ a ∈ pySortAsc 0 (profileBuildQI zref members),
      ∀ b ∈ pySortAsc 0 (profileBuildQI zref members),
      (decide ((b.getD 4 0 : ℚ) ≤ a.getD 4 0)) = true := by
    intro a ha b hb
    rw [pySortAsc, mem_sortStable] at ha hb
    rw [h a ha, h b hb]
    simp
  have h1 : profileComposeQI zref members =
      pySortAsc 0 (profileBuildQI zref members) := by
    unfold profileComposeQI pySortDesc
    exact sortStable_allTrue _ _ hall
  refine ⟨h1, ?_⟩
  rw [h1]
  have hp := pairwise_sortStable
    (fun a b : List ℚ => decide (a.getD 0 0 ≤ b.getD 0 0))
    (fun a b => by
      rcases le_total (a.getD 0 0) (b.getD 0 0) with h1 | h1
      · exact Or.inl (by simpa using h1)
      · exact Or.inr (by simpa using h1))
    (fun a b c hab hbc => by
      simp only [decide_eq_true_eq] at hab hbc ⊢
      exact le_trans hab hbc)
    (profileBuildQI zref members)
  exact hp.imp fun hab => by simpa using hab

/-- Witness for `profile_compose_timestamp_sorted` on the two-member input
of the counterexample: every built row has the constant `100` in column 4. -/
theorem profile_compose_timestamp_sorted_witness :
    profileComposeQI 0 [([[0, 1, 90]], 1), ([[0, 2, 110]], 2)] =
      pySortAsc 0 (profileBuildQI 0 [([[0, 1, 90]], 1), ([[0, 2, 110]], 2)]) ∧
    (profileComposeQI 0
        [([[0, 1, 90]], 1), ([[0, 2, 110]], 2)]).Pairwise
      (fun a b => a.getD 0 0 ≤ b.getD 0 0) :=
  profile_compose_timestamp_sorted 0 [([[0, 1, 90]], 1), ([[0, 2, 110]], 2)]
    (by decide)

/-! ## Temporal aggregation (`VirtualProcess.applyFunction`,
GOresponse.py 316-391) -/

/-- A raw series row `[timestamp, v₁, v₂, ...]`: the timestamp and the
per-column values (`tmp[c+1]` in the source). -/
structure SRow where
  t : Int
  vals : List ℚ
deriving DecidableEq

/-- The inner `while len(data) > 0` scan of GOresponse.py 336-348 for one
bucket `(dt, dt2]`.  The first argument is the working copy `data`
(`copy.copy(self.observation.data)`), the second the live
`self.observation.data` list from which `pop(0)` removes rows.  Returns the
rows whose values are appended to the bucket, and the remaining live list:

* `dt < tmp.t ≤ dt2`: collect `tmp`, pop the live list's head;
* `tmp.t < dt`: pop the live list's head;
* `dt2 < tmp.t`: `break`, leaving the live list as is;
* `tmp.t = dt`: no branch fires, the copy advances but the live list is
  untouched. -/
def bucketScan (dt dt2 : Int) : List SRow → List SRow → List SRow × List SRow
  | [], pending => ([], pending)
  | tmp :: rest, pending =>
    if dt < tmp.t ∧ tmp.t ≤ dt2 then
      let r := bucketScan dt dt2 rest pending.tail
      (tmp :: r.1, r.2)
    else if tmp.t < dt then
      bucketScan dt dt2 rest pending.tail
    else if dt2 < tmp.t then
      ([], pending)
    else
      bucketScan dt dt2 rest pending

/-- The outer `while dt < end` loop of GOresponse.py 329-350: produce the
bucket keyed by its upper edge `dt + d` and recurse on the remaining live
list.  `fuel` bounds the iteration count; `applyFunctionBuckets` supplies a
fuel that is exact for any positive duration. -/
def aggBuckets (d tEnd : Int) : Nat → Int → List SRow → List (Int × List SRow)
  | 0, _, _ => []
  | Nat.succ fuel, dt, pending =>
    if dt < tEnd then
      let s := bucketScan dt (dt + d) pending pending
      (dt + d, s.1) :: aggBuckets d tEnd fuel (dt + d) s.2
    else []

/-- The bucket-building phase of `applyFunction` (GOresponse.py 320-350)
for window `(tBegin, tEnd]` and duration `d`: since each iteration advances
`dt` by `d ≥ 1`, the loop runs at most `tEnd - tBegin` times, so this fuel
reproduces the Python loop exactly for every positive duration.  The
buckets come out keyed by strictly increasing upper edges, which is also
the order `for r in sorted(result)` visits them. -/
def applyFunctionBuckets (tBegin tEnd d : Int) (data : List SRow) :
    List (Int × List SRow) :=
  aggBuckets d tEnd (tEnd - tBegin).toNat tBegin data

/-- GOresponse.py 357: `observedProperty[v].split(":")[-1] == "qualityIndex"`. -/
def isQualityIndex (s : String) : Bool :=
  (s.splitOn ":").getLastD "" == "qualityIndex"

/-- The per-column reduction of GOresponse.py 356-384: a quality-index
column reduces to `int(min(...))` or the quality no-data sentinel; an
ordinary column reduces with the requested function or the ordinary
no-data sentinel; an unrecognized function name leaves `val = None`. -/
def reduceColumn (fname : String) (nodata nodataQi : ℚ) (isQI : Bool)
    (xs : List ℚ) : Option ℚ :=
  if isQI then
    if xs.isEmpty then some nodataQi
    else some ((pyTrunc (listMin xs) : Int) : ℚ)
  else
    if xs.isEmpty then some nodata
    else if fname.toUpper = "SUM" then some (listSum xs)
    else if fname.toUpper = "MAX" then some (listMax xs)
    else if fname.toUpper = "MIN" then some (listMin xs)
    else if fname.toUpper = "AVG" then
      some (pyRound 4 (listSum xs / (xs.length : ℚ)))
    else if fname.toUpper = "COUNT" then some ((xs.length : Nat) : ℚ)
    else none

/-- The request parameters consumed by `applyFunction`: aggregate function
name and the two independently configured no-data sentinels
(`filter.aggregate_function`, `filter.aggregate_nodata`,
`filter.aggregate_nodata_qi`). -/
structure AggFilter where
  aggregate_function : String
  aggregate_nodata : ℚ
  aggregate_nodata_qi : ℚ

/-- Column `v` of a bucket's collected rows: the values
`float(tmp[c+1])` appended at GOresponse.py 341-342, read back per column
(`result[r][v]`).  Well-formed rows have at least `fields` values, so the
`getD` default is never read. -/
def bucketColumn (rows : List SRow) (v : Nat) : List ℚ :=
  rows.map fun r => r.vals.getD v 0

/-- One output record of GOresponse.py 354-386: the bucket edge followed by
one reduced cell per observed property (`None` cells model the `val = None`
fall-through for an unrecognized function). -/
def applyFunctionRecord (fl : AggFilter) (obsProp : List String)
    (b : Int × List SRow) : Int × List (Option ℚ) :=
  (b.1,
    (List.range obsProp.length).map fun v =>
      reduceColumn fl.aggregate_function fl.aggregate_nodata
        fl.aggregate_nodata_qi (isQualityIndex (obsProp.getD v ""))
        (bucketColumn b.2 v))

/-- `VirtualProcess.applyFunction` (GOresponse.py 316-391): bucket the
series over `(tBegin, tEnd]` with duration `d`, then reduce every bucket
per column in ascending edge order. -/
def applyFunction (fl : AggFilter) (obsProp : List String)
    (tBegin tEnd d : Int) (data : List SRow) : List (Int × List (Option ℚ)) :=
  (applyFunctionBuckets tBegin tEnd d data).map (applyFunctionRecord fl obsProp)

/-! ### Unfolding equations for `bucketScan` -/

/-- Collect branch: `dt < tmp.t ≤ dt2` pops both lists and keeps the row. -/
theorem bucketScan_cons_collect {dt dt2 : Int} {tmp : SRow}
    {rest pending : List SRow} (h : dt < tmp.t ∧ tmp.t ≤ dt2) :
    bucketScan dt dt2 (tmp :: rest) pending =
      ((tmp :: (bucketScan dt dt2 rest pending.tail).1),
        (bucketScan dt dt2 rest pending.tail).2) := by
  simp [bucketScan, h]

/-- Drop branch: a row before the bucket pops both lists, collecting nothing. -/
theorem bucketScan_cons_drop {dt dt2 : Int} {tmp : SRow}
    {rest pending : List SRow} (h1 : ¬(dt < tmp.t ∧ tmp.t ≤ dt2))
    (h2 : tmp.t < dt) :
    bucketScan dt dt2 (tmp :: rest) pending =
      bucketScan dt dt2 rest pending.tail := by
  simp [bucketScan, h1, h2]

/-- Break branch: the first row past the bucket stops the scan. -/
theorem bucketScan_cons_break {dt dt2 : Int} {tmp : SRow}
    {rest pending : List SRow} (h1 : ¬(dt < tmp.t ∧ tmp.t ≤ dt2))
    (h2 : ¬ tmp.t < dt) (h3 : dt2 < tmp.t) :
    bucketScan dt dt2 (tmp :: rest) pending = ([], pending) := by
  simp [bucketScan, h1, h2, h3]

/-- Skip branch (`tmp.t = dt`): the copy advances, the live list does not. -/
theorem bucketScan_cons_skip {dt dt2 : Int} {tmp : SRow}
    {rest pending : List SRow} (h1 : ¬(dt < tmp.t ∧ tmp.t ≤ dt2))
    (h2 : ¬ tmp.t < dt) (h3 : ¬ dt2 < tmp.t) :
    bucketScan dt dt2 (tmp :: rest) pending =
      bucketScan dt dt2 rest pending := by
  simp [bucketScan, h1, h2, h3]

/-! ### What a bucket collects -/

/-- Soundness of the scan: every collected row lies in the half-open window
`(dt, dt2]`. -/
theorem bucketScan_fst_mem (dt dt2 : Int) (x : SRow) :
    ∀ l p : List SRow, x ∈ (bucketScan dt dt2 l p).1 →
      dt < x.t ∧ x.t ≤ dt2 := by
  intro l
  induction l with
  | nil => intro p h; simp [bucketScan] at h
  | cons tmp rest ih =>
    intro p h
    by_cases hc : dt < tmp.t ∧ tmp.t ≤ dt2
    · rw [bucketScan_cons_collect hc] at h
      rcases List.mem_cons.mp h with rfl | h
      · exact hc
      · exact ih p.tail h
    · by_cases hdrop : tmp.t < dt
      · rw [bucketScan_cons_drop hc hdrop] at h
        exact ih p.tail h
      · by_cases hbreak : dt2 < tmp.t
        · rw [bucketScan_cons_break hc hdrop hbreak] at h
          simp at h
        · rw [bucketScan_cons_skip hc hdrop hbreak] at h
          exact ih p h

/-- Completeness of the scan on a sorted copy: the collected rows are
exactly the rows of the copy inside the half-open window `(dt, dt2]`, in
order — the `break` can only cut off rows past the window. -/
theorem bucketScan_fst_filter (dt dt2 : Int) :
    ∀ l p : List SRow, l.Pairwise (fun a b => a.t ≤ b.t) →
      (bucketScan dt dt2 l p).1 =
        l.filter fun x => decide (dt < x.t) && decide (x.t ≤ dt2) := by
  intro l
  induction l with
  | nil => intro p _; rfl
  | cons tmp rest ih =>
    intro p hp
    rw [List.pairwise_cons] at hp
    obtain ⟨htmp, hrest⟩ := hp
    by_cases hc : dt < tmp.t ∧ tmp.t ≤ dt2
    · rw [bucketScan_cons_collect hc,
        List.filter_cons_of_pos (by
          simp only [Bool.and_eq_true, decide_eq_true_eq]; exact hc),
        ih p.tail hrest]
    · by_cases hdrop : tmp.t < dt
      · rw [bucketScan_cons_drop hc hdrop,
          List.filter_cons_of_neg (by
            simp only [Bool.and_eq_true, decide_eq_true_eq]; omega)]
        exact ih p.tail hrest
      · by_cases hbreak : dt2 < tmp.t
        · rw [bucketScan_cons_break hc hdrop hbreak]
          symm
          rw [List.filter_eq_nil]
          intro a ha
          rcases List.mem_cons.mp ha with rfl | ha
          · simp only [Bool.and_eq_true, decide_eq_true_eq]; omega
          · have := htmp a ha
            simp only [Bool.and_eq_true, decide_eq_true_eq]; omega
        · rw [bucketScan_cons_skip hc hdrop hbreak,
            List.filter_cons_of_neg (by
              simp only [Bool.and_eq_true, decide_eq_true_eq]; omega)]
          exact ih p hrest

/-! ### What survives in the live list -/

/-- Dropping the head of a suffix stays within the tail. -/
theorem suffix_tail_of_cons_suffix {α : Type} {a : α} {l1 l2 : List α}
    (h : (a :: l1) <:+ l2) : l1 <:+ l2.tail := by
  obtain ⟨pre, hpre⟩ := h
  cases pre with
  | nil => simp at hpre; rw [← hpre]; exact List.suffix_refl l1
  | cons b bs =>
    refine ⟨bs ++ [a], ?_⟩
    have : l2.tail = bs ++ a :: l1 := by rw [← hpre]; rfl
    rw [this]; simp

/-- The live list only ever loses a prefix. -/
theorem bucketScan_snd_suffix (dt dt2 : Int) :
    ∀ l p : List SRow, (bucketScan dt dt2 l p).2 <:+ p := by
  intro l
  induction l with
  | nil => intro p; exact List.suffix_refl p
  | cons tmp rest ih =>
    intro p
    by_cases hc : dt < tmp.t ∧ tmp.t ≤ dt2
    · rw [bucketScan_cons_collect hc]
      exact (ih p.tail).trans (List.tail_suffix p)
    · by_cases hdrop : tmp.t < dt
      · rw [bucketScan_cons_drop hc hdrop]
        exact (ih p.tail).trans (List.tail_suffix p)
      · by_cases hbreak : dt2 < tmp.t
        · rw [bucketScan_cons_break hc hdrop hbreak]
        · rw [bucketScan_cons_skip hc hdrop hbreak]
          exact ih p

/-- Rows past the bucket survive the scan: under sortedness of the live
list, every popped head has timestamp at most `dt2`, so a row with
timestamp beyond `dt2` is still in the live list afterwards. -/
theorem bucketScan_snd_mem (dt dt2 : Int) (hdd : dt ≤ dt2) (x : SRow)
    (hxt : dt2 < x.t) :
    ∀ l p : List SRow, l <:+ p → p.Pairwise (fun a b => a.t ≤ b.t) →
      x ∈ p → x ∈ (bucketScan dt dt2 l p).2 := by
  intro l
  induction l with
  | nil => intro p _ _ hx; exact hx
  | cons tmp rest ih =>
    intro p hsuf hp hx
    cases p with
    | nil => simp at hx
    | cons ph pt =>
      have htmp_mem : tmp ∈ ph :: pt := hsuf.subset (List.mem_cons_self tmp rest)
      rw [List.pairwise_cons] at hp
      obtain ⟨hph, hpt⟩ := hp
      have hph_le : ∀ hle : tmp.t ≤ dt2, ph.t ≤ dt2 := by
        intro hle
        rcases List.mem_cons.mp htmp_mem with rfl | hmem
        · exact hle
        · exact le_trans (hph tmp hmem) hle
      by_cases hc : dt < tmp.t ∧ tmp.t ≤ dt2
      · rw [bucketScan_cons_collect hc]
        have hxpt : x ∈ pt := by
          rcases List.mem_cons.mp hx with rfl | hmem
          · exact absurd (hph_le hc.2) (by omega)
          · exact hmem
        exact ih pt (suffix_tail_of_cons_suffix hsuf) hpt hxpt
      · by_cases hdrop : tmp.t < dt
        · rw [bucketScan_cons_drop hc hdrop]
          have hxpt : x ∈ pt := by
            rcases List.mem_cons.mp hx with rfl | hmem
            · exact absurd (hph_le (by omega)) (by omega)
            · exact hmem
          exact ih pt (suffix_tail_of_cons_suffix hsuf) hpt hxpt
        · by_cases hbreak : dt2 < tmp.t
          · rw [bucketScan_cons_break hc hdrop hbreak]
            exact hx
          · rw [bucketScan_cons_skip hc hdrop hbreak]
            exact ih (ph :: pt)
              ((List.suffix_cons tmp rest).trans hsuf)
              (List.pairwise_cons.mpr ⟨hph, hpt⟩) hx

/-! ### Bucket keys and bucket contents of the outer loop -/

/-- Every produced bucket key is `dt + d * (k + 1)` for some `k`. -/
theorem aggBuckets_key_form (d tEnd : Int) :
    ∀ (fuel : Nat) (dt : Int) (p : List SRow) (b : Int × List SRow),
      b ∈ aggBuckets d tEnd fuel dt p → ∃ k : Nat, b.1 = dt + d * (k + 1) := by
  intro fuel
  induction fuel with
  | zero => intro dt p b h; simp [aggBuckets] at h
  | succ fuel ih =>
    intro dt p b h
    rw [aggBuckets] at h
    by_cases hlt : dt < tEnd
    · rw [if_pos hlt] at h
      rcases List.mem_cons.mp h with rfl | h
      · exact ⟨0, by norm_num⟩
      · obtain ⟨k, hk⟩ := ih (dt + d) _ b h
        exact ⟨k + 1, by rw [hk]; push_cast; ring⟩
    · rw [if_neg hlt] at h
      simp at h

/-- Bucket keys are strictly increasing along the produced list. -/
theorem aggBuckets_keys_pairwise (d tEnd : Int) (hd : 1 ≤ d) :
    ∀ (fuel : Nat) (dt : Int) (p : List SRow),
      (aggBuckets d tEnd fuel dt p).Pairwise fun b b' => b.1 < b'.1 := by
  intro fuel
  induction fuel with
  | zero => intro dt p; simp [aggBuckets]
  | succ fuel ih =>
    intro dt p
    rw [aggBuckets]
    by_cases hlt : dt < tEnd
    · rw [if_pos hlt, List.pairwise_cons]
      refine ⟨?_, ih (dt + d) _⟩
      intro b' hb'
      obtain ⟨k, hk⟩ := aggBuckets_key_form d tEnd fuel (dt + d) _ b' hb'
      rw [hk]
      have hk1 : (1 : Int) ≤ (k : Int) + 1 := by omega
      have hmul : (1 : Int) * 1 ≤ d * ((k : Int) + 1) :=
        mul_le_mul hd hk1 (by omega) (by omega)
      show dt + d < dt + d + d * ((k : Int) + 1)
      linarith
    · rw [if_neg hlt]
      exact List.Pairwise.nil

/-- Soundness of the loop: a row assigned to a bucket lies in that bucket's
half-open window `(key - d, key]`. -/
theorem aggBuckets_sound (d tEnd : Int) :
    ∀ (fuel : Nat) (dt : Int) (p : List SRow) (b : Int × List SRow),
      b ∈ aggBuckets d tEnd fuel dt p → ∀ x ∈ b.2,
        b.1 - d < x.t ∧ x.t ≤ b.1 := by
  intro fuel
  induction fuel with
  | zero => intro dt p b h; simp [aggBuckets] at h
  | succ fuel ih =>
    intro dt p b h x hx
    rw [aggBuckets] at h
    by_cases hlt : dt < tEnd
    · rw [if_pos hlt] at h
      rcases List.mem_cons.mp h with rfl | h
      · have hmem := bucketScan_fst_mem dt (dt + d) x p p hx
        refine ⟨?_, hmem.2⟩
        show dt + d - d < x.t
        omega
      · exact ih (dt + d) _ b h x hx
    · rw [if_neg hlt] at h
      simp at h

/-- Completeness of the loop: a pending row past the current cursor and
within the overall window is assigned to some produced bucket, given enough
fuel. -/
theorem aggBuckets_complete (d tEnd : Int) (hd : 1 ≤ d) (r : SRow)
    (hrEnd : r.t ≤ tEnd) :
    ∀ (fuel : Nat) (dt : Int) (p : List SRow),
      p.Pairwise (fun a b => a.t ≤ b.t) → r ∈ p → dt < r.t →
      r.t ≤ dt + d * (fuel : Int) →
      ∃ b ∈ aggBuckets d tEnd fuel dt p, r ∈ b.2 := by
  intro fuel
  induction fuel with
  | zero =>
    intro dt p _ _ hdt hle
    exfalso
    simp only [Nat.cast_zero, mul_zero, add_zero] at hle
    omega
  | succ fuel ih =>
    intro dt p hp hr hdt hle
    have hlt : dt < tEnd := lt_of_lt_of_le hdt hrEnd
    rw [aggBuckets, if_pos hlt]
    by_cases hcase : r.t ≤ dt + d
    · refine ⟨(dt + d, (bucketScan dt (dt + d) p p).1),
        List.mem_cons_self _ _, ?_⟩
      show r ∈ (bucketScan dt (dt + d) p p).1
      rw [bucketScan_fst_filter dt (dt + d) p p hp, List.mem_filter]
      refine ⟨hr, ?_⟩
      simp only [Bool.and_eq_true, decide_eq_true_eq]
      exact ⟨hdt, hcase⟩
    · push_neg at hcase
      have hsuf := bucketScan_snd_suffix dt (dt + d) p p
      have hp' : (bucketScan dt (dt + d) p p).2.Pairwise
          (fun a b => a.t ≤ b.t) := hp.sublist hsuf.sublist
      have hrmem : r ∈ (bucketScan dt (dt + d) p p).2 :=
        bucketScan_snd_mem dt (dt + d) (by omega) r hcase p p
          (List.suffix_refl p) hp hr
      have hle' : r.t ≤ (dt + d) + d * (fuel : Int) := by
        have hcast : dt + d * ((fuel : Int) + 1) = (dt + d) + d * (fuel : Int) := by
          ring
        have : r.t ≤ dt + d * ((fuel : Int) + 1) := by
          push_cast at hle
          linarith
        linarith [hcast]
      obtain ⟨b, hb, hbr⟩ := ih (dt + d) _ hp' hrmem hcase hle'
      exact ⟨b, List.mem_cons_of_mem _ hb, hbr⟩

/-! ### C1: half-open bucket assignment -/

/-- Claim C1: for an aggregation run over `(tBegin, tEnd]` with positive
duration `d` on a timestamp-sorted series, every row with
`tBegin < t ≤ tEnd` is assigned to exactly one bucket, namely the unique
bucket whose half-open window `(key - d, key]` contains `t`; in particular
a row whose timestamp equals a bucket's lower edge belongs to the earlier
bucket, never to the bucket that edge opens. -/
theorem agg_halfopen_bucket_assignment (tBegin tEnd d : Int)
    (data : List SRow) (r : SRow) (hd : 1 ≤ d)
    (hsort : data.Pairwise fun a b => a.t ≤ b.t) (hr : r ∈ data)
    (h1 : tBegin < r.t) (h2 : r.t ≤ tEnd) :
    ∃ b, b ∈ applyFunctionBuckets tBegin tEnd d data ∧ r ∈ b.2 ∧
      b.1 - d < r.t ∧ r.t ≤ b.1 ∧
      ∀ b', b' ∈ applyFunctionBuckets tBegin tEnd d data → r ∈ b'.2 →
        b' = b := by
  have hfuel : r.t ≤ tBegin + d * (((tEnd - tBegin).toNat : Nat) : Int) := by
    have hnn : (0 : Int) ≤ tEnd - tBegin := by omega
    rw [Int.toNat_of_nonneg hnn]
    have hgrow : tEnd - tBegin ≤ d * (tEnd - tBegin) :=
      le_mul_of_one_le_left hnn hd
    linarith
  obtain ⟨b, hb, hbr⟩ :=
    aggBuckets_complete d tEnd hd r h2 _ tBegin data hsort hr h1 hfuel
  have hsound := aggBuckets_sound d tEnd _ tBegin data b hb r hbr
  refine ⟨b, hb, hbr, hsound.1, hsound.2, ?_⟩
  intro b' hb' hbr'
  have hsound' := aggBuckets_sound d tEnd _ tBegin data b' hb' r hbr'
  obtain ⟨k, hk⟩ := aggBuckets_key_form d tEnd _ tBegin data b hb
  obtain ⟨k', hk'⟩ := aggBuckets_key_form d tEnd _ tBegin data b' hb'
  have hkeys : b'.1 = b.1 := by
    have hs1 : b.1 - d < r.t := hsound.1
    have hs2 : r.t ≤ b.1 := hsound.2
    have hs1' : b'.1 - d < r.t := hsound'.1
    have hs2' : r.t ≤ b'.1 := hsound'.2
    rw [hk] at hs1 hs2
    rw [hk'] at hs1' hs2'
    rw [hk, hk']
    have hringk : d * ((k : Int) + 1) = d * (k : Int) + d := by ring
    have hringk' : d * ((k' : Int) + 1) = d * (k' : Int) + d := by ring
    have hkk : (k' : Int) = (k : Int) := by
      by_contra hne
      rcases lt_or_gt_of_ne hne with hlt | hgt
      · have hstep : (k' : Int) + 1 ≤ (k : Int) := by omega
        have hm : d * ((k' : Int) + 1) ≤ d * (k : Int) :=
          mul_le_mul_of_nonneg_left hstep (by omega)
        linarith
      · have hstep : (k : Int) + 1 ≤ (k' : Int) := by omega
        have hm : d * ((k : Int) + 1) ≤ d * (k' : Int) :=
          mul_le_mul_of_nonneg_left hstep (by omega)
        linarith
    rw [hkk]
  have hpw :=
    (aggBuckets_keys_pairwise d tEnd hd (tEnd - tBegin).toNat tBegin data).imp
      (fun hlt => ne_of_lt hlt)
  have hb'' : b' ∈ aggBuckets d tEnd (tEnd - tBegin).toNat tBegin data := hb'
  by_contra hne
  exact absurd hkeys (hpw.forall (fun _ _ h => h.symm) hb'' hb hne)

/-- Witness for `agg_halfopen_bucket_assignment`: window `(0, 4]`, duration
`2`, one row at `t = 2` — the row lands in the first bucket `(0, 2]`
(timestamp equal to the second bucket's lower edge stays in the earlier
bucket), and in no other. -/
theorem agg_halfopen_bucket_assignment_witness :
    ∃ b, b ∈ applyFunctionBuckets 0 4 2 [⟨2, []⟩] ∧ (⟨2, []⟩ : SRow) ∈ b.2 ∧
      b.1 - 2 < (⟨2, []⟩ : SRow).t ∧ (⟨2, []⟩ : SRow).t ≤ b.1 ∧
      ∀ b', b' ∈ applyFunctionBuckets 0 4 2 [⟨2, []⟩] →
        (⟨2, []⟩ : SRow) ∈ b'.2 → b' = b :=
  agg_halfopen_bucket_assignment 0 4 2 [⟨2, []⟩] ⟨2, []⟩ (by norm_num)
    (by simp) (by simp) (by decide) (by decide)

/-! ### C5: per-column no-data and quality policy -/

/-- Claim C5: in every output record of the aggregation, the cell of a
quality-index column (name ending in the `qualityIndex` marker) is the
truncated minimum quality code in the bucket, or the configured quality
no-data sentinel `aggregate_nodata_qi` when the bucket holds no value for
that column; the cell of an ordinary column over an empty bucket is the
configured ordinary sentinel `aggregate_nodata`.  Both hold for every
filter configuration at once, so the two sentinels are never conflated. -/
theorem agg_nodata_policy (fl : AggFilter) (obsProp : List String)
    (b : Int × List SRow) (v : Nat) (hv : v < obsProp.length) :
    (isQualityIndex (obsProp.getD v "") = true →
      (applyFunctionRecord fl obsProp b).2.get? v =
        some (if (bucketColumn b.2 v).isEmpty then some fl.aggregate_nodata_qi
          else some ((pyTrunc (listMin (bucketColumn b.2 v)) : Int) : ℚ))) ∧
    (isQualityIndex (obsProp.getD v "") = false →
      (bucketColumn b.2 v).isEmpty = true →
      (applyFunctionRecord fl obsProp b).2.get? v =
        some (some fl.aggregate_nodata)) := by
  have hcell : (applyFunctionRecord fl obsProp b).2.get? v =
      some (reduceColumn fl.aggregate_function fl.aggregate_nodata
        fl.aggregate_nodata_qi (isQualityIndex (obsProp.getD v ""))
        (bucketColumn b.2 v)) := by
    simp [applyFunctionRecord, List.get?_map, List.get?_range, hv]
  constructor
  · intro hqi
    rw [hcell, hqi]
    by_cases he : (bucketColumn b.2 v).isEmpty = true <;>
      simp [reduceColumn, he]
  · intro hqi he
    rw [hcell, hqi]
    simp [reduceColumn, he]

/-- Witness for `agg_nodata_policy`: column 1 of `["p", "p:qualityIndex"]`
is a quality column; over the empty bucket `(10, [])` its cell is the
configured quality sentinel `-100`, distinct from the ordinary sentinel
`-999`. -/
theorem agg_nodata_policy_witness :
    (isQualityIndex ((["p", "p:qualityIndex"] : List String).getD 1 "") = true →
      (applyFunctionRecord ⟨"SUM", -999, -100⟩ ["p", "p:qualityIndex"]
          (10, [])).2.get? 1 =
        some (if (bucketColumn ([] : List SRow) 1).isEmpty
          then some ((⟨"SUM", -999, -100⟩ : AggFilter).aggregate_nodata_qi)
          else some ((pyTrunc (listMin (bucketColumn ([] : List SRow) 1)) :
            Int) : ℚ))) ∧
    (isQualityIndex ((["p", "p:qualityIndex"] : List String).getD 1 "") = false →
      (bucketColumn ([] : List SRow) 1).isEmpty = true →
      (applyFunctionRecord ⟨"SUM", -999, -100⟩ ["p", "p:qualityIndex"]
          (10, [])).2.get? 1 =
        some (some ((⟨"SUM", -999, -100⟩ : AggFilter).aggregate_nodata))) :=
  agg_nodata_policy ⟨"SUM", -999, -100⟩ ["p", "p:qualityIndex"] (10, []) 1
    (by decide)

end Istsos
